import Mathlib

/-!
# Verification of the Superspeed Autoclicker core (src/main.rs)

Shallow embedding of the autoclicker's pure logic:

* `Config` and the line-oriented config file format (`Config::load` / `Config::save`),
* key-name resolution (`string_to_rdev_key`),
* the shared runtime state (`AppState`) and its construction (`AppState::from_config`),
* the click-timestamp pruning performed in `AppState::update`,
* one iteration of the autoclicker thread's loop, as a trace of emitted effects,
* the global listener callback's key-press / button-press handling.

Strings are modelled as `List Char` (`Str`); wall-clock instants and the `f64`
click rate as `ℚ`.  Where the Rust code calls the standard library's
`str::parse::<f64>` / `f64`'s `Display`, the embedding is parameterised by an
abstract parse/display pair, since those are external library functions whose
contract (display round-trips through parse) is documented by the Rust
standard library; a concrete restricted decimal parser over `ℚ` is also
provided for evaluating the model on concrete inputs.
-/

set_option maxHeartbeats 1000000

/-- Strings modelled as lists of characters (mirrors Rust `&str` contents). -/
abbrev Str := List Char

/-- Embed a Lean string literal as a `Str`. -/
def strL (s : String) : Str := s.data

/-- Model of Rust `str::trim` (drop whitespace from both ends). -/
def trimStr (s : Str) : Str :=
  List.rdropWhile Char.isWhitespace (s.dropWhile Char.isWhitespace)

/-- Model of `line.splitn(2, '=')` restricted to the two-part case used by
`Config::load`: split at the first `'='`; `none` when the line holds no `'='`
(the `parts.len() != 2` lines that `load` skips). -/
def splitFirstEq : Str → Option (Str × Str)
  | [] => none
  | c :: rest =>
    if c = '=' then some ([], rest)
    else
      match splitFirstEq rest with
      | some (k, v) => some (c :: k, v)
      | none => none

/-- The three `enigo::MouseButton` values the program uses. -/
inductive MouseButton where
  | left
  | middle
  | right
deriving DecidableEq, Repr

/-- The `rdev::Key` variants that `string_to_rdev_key` names, plus `other`
for every remaining variant of the (much larger) `rdev::Key` enumeration,
carrying a code to keep distinct variants distinct. -/
inductive RdevKey where
  | insert
  | f1 | f2 | f3 | f4 | f5 | f6 | f7 | f8 | f9 | f10 | f11 | f12
  | keyA | keyB | keyC | keyD | keyE | keyF | keyG | keyH | keyI | keyJ
  | keyK | keyL | keyM | keyN | keyO | keyP | keyQ | keyR | keyS | keyT
  | keyU | keyV | keyW | keyX | keyY | keyZ
  | other (code : Nat)
deriving DecidableEq, Repr

/-- Pruning of the click-timestamp list performed at the top of
`AppState::update`:
`clicks.retain(|&t| now.duration_since(t) <= Duration::from_secs(1))`.
Instants are rationals in seconds; `duration_since` is subtraction. -/
def pruneClicks (now : ℚ) (clicks : List ℚ) : List ℚ :=
  clicks.filter (fun t => now - t ≤ 1)

/-- The `Config` struct of main.rs (field order preserved).  The `f64` field
`target_cps` is abstracted to a carrier `F` supplied together with the
parse/display functions that model `str::parse::<f64>` and `f64`'s
`Display`. -/
structure Config (F : Type) where
  hotkey : Str
  fast_mode : Bool
  target_cps : F
  left_click : Bool
  middle_click : Bool
  right_click : Bool
  play_sound : Bool
deriving Repr

/-- Model of Rust `str::parse::<bool>`: accepts exactly `"true"` and
`"false"`. -/
def parseBoolStr (s : Str) : Option Bool :=
  if s = strL "true" then some true
  else if s = strL "false" then some false
  else none

/-- Model of Rust `bool`'s `Display`, used by the `writeln!` calls in
`Config::save`. -/
def boolStr (b : Bool) : Str := if b then strL "true" else strL "false"

/-- The defaults set at the top of `Config::load` (also the literal config
that `AppState::default` feeds to `from_config`): hotkey `"Insert"`,
fast_mode `true`, target_cps `10.0` (the abstract `defCps`), left_click
`true`, middle_click / right_click / play_sound `false`. -/
def defaultConfig {F : Type} (defCps : F) : Config F :=
  ⟨strL "Insert", true, defCps, true, false, false, false⟩

/-- One iteration of the line loop in `Config::load`: split the line at the
first `'='` (lines without `'='` are skipped, the `parts.len() != 2` check),
trim key and value, and assign the matching field, substituting the default
on parse failure (the `unwrap_or` calls).  Unrecognised keys leave the
config unchanged (the `_ => {}` arm). -/
def applyLine {F : Type} (parseF : Str → Option F) (defCps : F)
    (c : Config F) (line : Str) : Config F :=
  match splitFirstEq line with
  | none => c
  | some (k, v) =>
    let key := trimStr k
    let value := trimStr v
    if key = strL "hotkey" then { c with hotkey := value }
    else if key = strL "fast_mode" then
      { c with fast_mode := (parseBoolStr value).getD true }
    else if key = strL "target_cps" then
      { c with target_cps := (parseF value).getD defCps }
    else if key = strL "left_click" then
      { c with left_click := (parseBoolStr value).getD true }
    else if key = strL "middle_click" then
      { c with middle_click := (parseBoolStr value).getD false }
    else if key = strL "right_click" then
      { c with right_click := (parseBoolStr value).getD false }
    else if key = strL "play_sound" then
      { c with play_sound := (parseBoolStr value).getD false }
    else c

/-- The body of `Config::load` applied to the opened file's lines. -/
def loadLines {F : Type} (parseF : Str → Option F) (defCps : F)
    (lines : List Str) : Config F :=
  lines.foldl (applyLine parseF defCps) (defaultConfig defCps)

/-- `Config::load`: `none` exactly when `config.txt` cannot be opened
(the `File::open(..).ok()?`). -/
def load {F : Type} (parseF : Str → Option F) (defCps : F) :
    Option (List Str) → Option (Config F)
  | none => none
  | some lines => some (loadLines parseF defCps lines)

/-- `Config::save`: the seven lines written by the `writeln!` calls, in
order.  A file is modelled as its list of lines, so line-list equality is
byte equality of the written file (each `writeln!` appends one `'\n'`). -/
def save {F : Type} (displayF : F → Str) (c : Config F) : List Str :=
  [ strL "hotkey=" ++ c.hotkey,
    strL "fast_mode=" ++ boolStr c.fast_mode,
    strL "target_cps=" ++ displayF c.target_cps,
    strL "left_click=" ++ boolStr c.left_click,
    strL "middle_click=" ++ boolStr c.middle_click,
    strL "right_click=" ++ boolStr c.right_click,
    strL "play_sound=" ++ boolStr c.play_sound ]

/-- Model of `s.to_lowercase()` (an ASCII fold: all the string literals it
is compared against in `string_to_rdev_key` are ASCII). -/
def lowerStr (s : Str) : Str := s.map Char.toLower

/-- Translation of `string_to_rdev_key`: lowercase match on the named keys,
then the single-character A–Z fallback (`to_ascii_uppercase`), else `None`. -/
def string_to_rdev_key (s : Str) : Option RdevKey :=
  let sLower := lowerStr s
  if sLower = strL "insert" then some .insert
  else if sLower = strL "f1" then some .f1
  else if sLower = strL "f2" then some .f2
  else if sLower = strL "f3" then some .f3
  else if sLower = strL "f4" then some .f4
  else if sLower = strL "f5" then some .f5
  else if sLower = strL "f6" then some .f6
  else if sLower = strL "f7" then some .f7
  else if sLower = strL "f8" then some .f8
  else if sLower = strL "f9" then some .f9
  else if sLower = strL "f10" then some .f10
  else if sLower = strL "f11" then some .f11
  else if sLower = strL "f12" then some .f12
  else if s.length = 1 then
    match s.head? with
    | none => none
    | some c0 =>
      let ch := c0.toUpper
      if ch = 'A' then some .keyA
      else if ch = 'B' then some .keyB
      else if ch = 'C' then some .keyC
      else if ch = 'D' then some .keyD
      else if ch = 'E' then some .keyE
      else if ch = 'F' then some .keyF
      else if ch = 'G' then some .keyG
      else if ch = 'H' then some .keyH
      else if ch = 'I' then some .keyI
      else if ch = 'J' then some .keyJ
      else if ch = 'K' then some .keyK
      else if ch = 'L' then some .keyL
      else if ch = 'M' then some .keyM
      else if ch = 'N' then some .keyN
      else if ch = 'O' then some .keyO
      else if ch = 'P' then some .keyP
      else if ch = 'Q' then some .keyQ
      else if ch = 'R' then some .keyR
      else if ch = 'S' then some .keyS
      else if ch = 'T' then some .keyT
      else if ch = 'U' then some .keyU
      else if ch = 'V' then some .keyV
      else if ch = 'W' then some .keyW
      else if ch = 'X' then some .keyX
      else if ch = 'Y' then some .keyY
      else if ch = 'Z' then some .keyZ
      else none
  else none

/-- The shared application state (`AppState`), with the cross-thread cells
inlined: `clicking`, `changing_hotkey`, `fast_mode`, `play_sound` are the
atomics' values; `hotkey`, `clicks`, `target_cps`, `selected_buttons` the
mutex contents.  Instants and the `f64` rate are rationals. -/
structure SharedState where
  clicking : Bool
  hotkey : RdevKey
  changing_hotkey : Bool
  clicks : List ℚ
  fast_mode : Bool
  target_cps : ℚ
  left_click : Bool
  middle_click : Bool
  right_click : Bool
  selected_buttons : List MouseButton
  play_sound : Bool
deriving Repr, DecidableEq

/-- `AppState::from_config`: resolve the hotkey name (falling back to
`Insert`), build the selected-buttons list by the three pushes, start with
`clicking` / `changing_hotkey` false and an empty click list. -/
def from_config (c : Config ℚ) : SharedState where
  clicking := false
  hotkey := (string_to_rdev_key c.hotkey).getD .insert
  changing_hotkey := false
  clicks := []
  fast_mode := c.fast_mode
  target_cps := c.target_cps
  left_click := c.left_click
  middle_click := c.middle_click
  right_click := c.right_click
  selected_buttons :=
    (if c.left_click then [MouseButton.left] else [])
      ++ (if c.middle_click then [MouseButton.middle] else [])
      ++ (if c.right_click then [MouseButton.right] else [])
  play_sound := c.play_sound

/-- The startup logic of `main`: `Config::load()` with fallback to
`AppState::default()` (which is `from_config` of the default literal
config) when the config file is missing. -/
def mainInit (parseQ : Str → Option ℚ) (file : Option (List Str)) :
    SharedState :=
  match load parseQ 10 file with
  | some c => from_config c
  | none => from_config (defaultConfig 10)

/-- The (trimmed) value a single config line assigns to `key`, if any. -/
def lineVal (key : Str) (line : Str) : Option Str :=
  match splitFirstEq line with
  | none => none
  | some (k, v) => if trimStr k = key then some (trimStr v) else none

/-- The value assigned to `key` by the last line of `lines` that sets it,
starting from a prior assignment `acc` (the last assignment wins, matching
the sequential processing in `Config::load`). -/
def lastValFrom (key : Str) (acc : Option Str) (lines : List Str) :
    Option Str :=
  lines.foldl
    (fun a line =>
      match lineVal key line with
      | some v => some v
      | none => a)
    acc

/-- The value assigned to `key` by the last line of `lines` that sets it. -/
def lastVal (key : Str) (lines : List Str) : Option Str :=
  lastValFrom key none lines

/-- Model of Rust `str::parse::<f64>` restricted to plain unsigned decimal
digit strings: the whole-number value of a nonempty all-digit string. -/
def digitsVal (s : Str) : Option ℕ :=
  if s = [] then none
  else if s.all Char.isDigit then
    some (s.foldl (fun n c => 10 * n + (c.toNat - '0'.toNat)) 0)
  else none

/-- Split a string at its first `'.'` (for the fractional part of a decimal
literal). -/
def splitFirstDot : Str → Option (Str × Str)
  | [] => none
  | c :: rest =>
    if c = '.' then some ([], rest)
    else
      match splitFirstDot rest with
      | some (k, v) => some (c :: k, v)
      | none => none

/-- Unsigned decimal literal over `ℚ`: digits with an optional fractional
part. -/
def parseUnsignedDec (s : Str) : Option ℚ :=
  match splitFirstDot s with
  | none => (digitsVal s).map (fun n => (n : ℚ))
  | some (ip, fp) =>
    match digitsVal ip, digitsVal fp with
    | some i, some f => some ((i : ℚ) + (f : ℚ) / (10 : ℚ) ^ fp.length)
    | _, _ => none

/-- Concrete model of Rust `str::parse::<f64>` over `ℚ`, restricted to
plain decimal literals with an optional sign (no exponents or special
values); exact on this subset, which covers every concrete input used in
this development. -/
def parseDecQ (s : Str) : Option ℚ :=
  match s with
  | [] => none
  | c :: rest =>
    if c = '-' then (parseUnsignedDec rest).map (fun q => -q)
    else if c = '+' then parseUnsignedDec rest
    else parseUnsignedDec s

/-- A deliberately tiny instantiation of the abstract `f64` display used to
exercise the parametric config theorems on closed inputs: carrier `Bool`,
displayed as `"1"` / `"0"`. -/
def displayBoolF (b : Bool) : Str := if b then strL "1" else strL "0"

/-- The parse half of the tiny `Bool` instantiation: inverse of
`displayBoolF`. -/
def parseBoolF (s : Str) : Option Bool :=
  if s = strL "1" then some true
  else if s = strL "0" then some false
  else none

/-- The observable effects of one autoclicker-loop iteration, in program
order: `mouseClick` is `enigo.mouse_click` (one press+release), `mouseDown`
/ `mouseUp` the separate `enigo` calls, `soundSpawn` the `thread::spawn` of
one asynchronous sound playback (the loop does not wait on it),
`sleepSecs q` the pacing `thread::sleep(Duration::from_secs_f64(q))`,
`spinHint` the fast-mode `std::hint::spin_loop()`, and `idleSleepMs` the
idle-branch `thread::sleep(Duration::from_millis(10))`. -/
inductive EmitEvent where
  | mouseClick (b : MouseButton)
  | mouseDown (b : MouseButton)
  | mouseUp (b : MouseButton)
  | soundSpawn
  | sleepSecs (q : ℚ)
  | spinHint
  | idleSleepMs (n : ℕ)
deriving DecidableEq, Repr

/-- One iteration of the autoclicker thread's `loop` (main.rs lines
390–423): the state after the iteration paired with the list of emitted
effects.  The thread only loads the shared cells (`clicking`,
`selected_buttons`, `play_sound`, `fast_mode`, `target_cps`) and never
stores to any of them, so the state is threaded through unchanged.  Note
that in the source the sound spawn and the pacing branch sit inside the
`else` of the `buttons.is_empty()` test. -/
def clickerStep (s : SharedState) : SharedState × List EmitEvent :=
  if s.clicking then
    let buttons := s.selected_buttons
    if buttons.isEmpty then (s, [.mouseClick .left])
    else
      let actions :=
        buttons.flatMap (fun b => [EmitEvent.mouseDown b, EmitEvent.mouseUp b])
      let soundEvents := if s.play_sound then [EmitEvent.soundSpawn] else []
      let pacing :=
        if !s.fast_mode then [EmitEvent.sleepSecs (1 / s.target_cps)]
        else [EmitEvent.spinHint]
      (s, actions ++ soundEvents ++ pacing)
  else (s, [.idleSleepMs 10])

/-- The events delivered to the `rdev` listener callback: a key press, a
left-button press (carrying the instant `Instant::now()` observed in the
handler), or any other event (ignored by the `_ => {}` arm). -/
inductive ListenEvent where
  | keyPress (k : RdevKey)
  | buttonPressLeft (now : ℚ)
  | otherEvent
deriving DecidableEq, Repr

/-- The listener callback (main.rs lines 433–457): while rebinding, a key
press becomes the new hotkey and rebinding ends; otherwise a press of the
current hotkey toggles `clicking`; a left-button press appends the current
instant to `clicks`; everything else is ignored. -/
def listenerStep (s : SharedState) (e : ListenEvent) : SharedState :=
  match e with
  | .keyPress key =>
    if s.changing_hotkey then
      { s with hotkey := key, changing_hotkey := false }
    else if key = s.hotkey then { s with clicking := !s.clicking }
    else s
  | .buttonPressLeft now => { s with clicks := s.clicks ++ [now] }
  | .otherEvent => s

/-! ## Helper lemmas: last-assignment characterisation of `Config::load` -/

theorem lastValFrom_elim (key : Str) (lines : List Str) :
    ∀ a : Option Str,
      lastValFrom key a lines = (lastVal key lines).elim a some := by
  induction lines with
  | nil => intro a; rfl
  | cons line ls ih =>
    intro a
    show lastValFrom key
        (match lineVal key line with | some v => some v | none => a) ls
      = (lastValFrom key
          (match lineVal key line with | some v => some v | none => none)
          ls).elim a some
    cases lineVal key line with
    | none =>
      show lastValFrom key a ls = (lastValFrom key none ls).elim a some
      exact ih a
    | some v =>
      show lastValFrom key (some v) ls
        = (lastValFrom key (some v) ls).elim a some
      rw [ih (some v)]
      cases lastVal key ls <;> rfl

theorem lastVal_cons (key line : Str) (ls : List Str) :
    lastVal key (line :: ls) = (lastVal key ls).elim (lineVal key line) some := by
  show lastValFrom key
      (match lineVal key line with | some v => some v | none => none) ls
    = (lastVal key ls).elim (lineVal key line) some
  cases lineVal key line with
  | none =>
    show lastValFrom key none ls = (lastVal key ls).elim none some
    rw [lastValFrom_elim]
  | some v =>
    show lastValFrom key (some v) ls = (lastVal key ls).elim (some v) some
    exact lastValFrom_elim key ls (some v)

theorem applyLine_hotkey {F : Type} (parseF : Str → Option F) (defCps : F)
    (c : Config F) (line : Str) :
    (applyLine parseF defCps c line).hotkey =
      (lineVal (strL "hotkey") line).elim c.hotkey id := by
  unfold applyLine lineVal
  cases hsp : splitFirstEq line with
  | none => rfl
  | some kv =>
    obtain ⟨k, v⟩ := kv
    dsimp only
    split_ifs <;> simp_all [strL]

theorem applyLine_fast_mode {F : Type} (parseF : Str → Option F) (defCps : F)
    (c : Config F) (line : Str) :
    (applyLine parseF defCps c line).fast_mode =
      (lineVal (strL "fast_mode") line).elim c.fast_mode
        (fun v => (parseBoolStr v).getD true) := by
  unfold applyLine lineVal
  cases hsp : splitFirstEq line with
  | none => rfl
  | some kv =>
    obtain ⟨k, v⟩ := kv
    dsimp only
    split_ifs <;> simp_all [strL]

theorem applyLine_target_cps {F : Type} (parseF : Str → Option F) (defCps : F)
    (c : Config F) (line : Str) :
    (applyLine parseF defCps c line).target_cps =
      (lineVal (strL "target_cps") line).elim c.target_cps
        (fun v => (parseF v).getD defCps) := by
  unfold applyLine lineVal
  cases hsp : splitFirstEq line with
  | none => rfl
  | some kv =>
    obtain ⟨k, v⟩ := kv
    dsimp only
    split_ifs <;> simp_all [strL]

theorem applyLine_left_click {F : Type} (parseF : Str → Option F) (defCps : F)
    (c : Config F) (line : Str) :
    (applyLine parseF defCps c line).left_click =
      (lineVal (strL "left_click") line).elim c.left_click
        (fun v => (parseBoolStr v).getD true) := by
  unfold applyLine lineVal
  cases hsp : splitFirstEq line with
  | none => rfl
  | some kv =>
    obtain ⟨k, v⟩ := kv
    dsimp only
    split_ifs <;> simp_all [strL]

theorem applyLine_middle_click {F : Type} (parseF : Str → Option F) (defCps : F)
    (c : Config F) (line : Str) :
    (applyLine parseF defCps c line).middle_click =
      (lineVal (strL "middle_click") line).elim c.middle_click
        (fun v => (parseBoolStr v).getD false) := by
  unfold applyLine lineVal
  cases hsp : splitFirstEq line with
  | none => rfl
  | some kv =>
    obtain ⟨k, v⟩ := kv
    dsimp only
    split_ifs <;> simp_all [strL]

theorem applyLine_right_click {F : Type} (parseF : Str → Option F) (defCps : F)
    (c : Config F) (line : Str) :
    (applyLine parseF defCps c line).right_click =
      (lineVal (strL "right_click") line).elim c.right_click
        (fun v => (parseBoolStr v).getD false) := by
  unfold applyLine lineVal
  cases hsp : splitFirstEq line with
  | none => rfl
  | some kv =>
    obtain ⟨k, v⟩ := kv
    dsimp only
    split_ifs <;> simp_all [strL]

theorem applyLine_play_sound {F : Type} (parseF : Str → Option F) (defCps : F)
    (c : Config F) (line : Str) :
    (applyLine parseF defCps c line).play_sound =
      (lineVal (strL "play_sound") line).elim c.play_sound
        (fun v => (parseBoolStr v).getD false) := by
  unfold applyLine lineVal
  cases hsp : splitFirstEq line with
  | none => rfl
  | some kv =>
    obtain ⟨k, v⟩ := kv
    dsimp only
    split_ifs <;> simp_all [strL]

theorem option_elim_elim {α β : Type} (o p : Option α) (d : β) (f : α → β) :
    o.elim (p.elim d f) f = (o.elim p some).elim d f := by
  cases o <;> cases p <;> rfl

/-- `Config::load`'s fold, characterised field by field: each field holds
the parse of the last line assigning it, with the running config's value as
fallback. -/
theorem foldl_applyLine_eq {F : Type} (parseF : Str → Option F) (defCps : F)
    (lines : List Str) :
    ∀ c : Config F,
      List.foldl (applyLine parseF defCps) c lines =
        { hotkey := (lastVal (strL "hotkey") lines).elim c.hotkey id
          fast_mode := (lastVal (strL "fast_mode") lines).elim c.fast_mode
            (fun v => (parseBoolStr v).getD true)
          target_cps := (lastVal (strL "target_cps") lines).elim c.target_cps
            (fun v => (parseF v).getD defCps)
          left_click := (lastVal (strL "left_click") lines).elim c.left_click
            (fun v => (parseBoolStr v).getD true)
          middle_click := (lastVal (strL "middle_click") lines).elim c.middle_click
            (fun v => (parseBoolStr v).getD false)
          right_click := (lastVal (strL "right_click") lines).elim c.right_click
            (fun v => (parseBoolStr v).getD false)
          play_sound := (lastVal (strL "play_sound") lines).elim c.play_sound
            (fun v => (parseBoolStr v).getD false) } := by
  induction lines with
  | nil => intro c; rfl
  | cons line ls ih =>
    intro c
    rw [List.foldl_cons, ih (applyLine parseF defCps c line)]
    simp only [lastVal_cons, applyLine_hotkey, applyLine_fast_mode,
      applyLine_target_cps, applyLine_left_click, applyLine_middle_click,
      applyLine_right_click, applyLine_play_sound, option_elim_elim]

/-! ## Helper lemmas: `splitn` on saved lines and per-line loading -/

theorem splitFirstEq_key : ∀ pre : Str, '=' ∉ pre → ∀ v : Str,
    splitFirstEq (pre ++ '=' :: v) = some (pre, v) := by
  intro pre hpre v
  induction pre with
  | nil => simp [splitFirstEq]
  | cons c rest ih =>
    have hc : ¬ c = '=' := fun h => hpre (h ▸ List.mem_cons_self c rest)
    have hrest : '=' ∉ rest := fun h => hpre (List.mem_cons_of_mem c h)
    show splitFirstEq (c :: (rest ++ '=' :: v)) = some (c :: rest, v)
    unfold splitFirstEq
    rw [if_neg hc, ih hrest]

theorem applyLine_line_hotkey {F : Type} (parseF : Str → Option F)
    (defCps : F) (c : Config F) (v : Str) :
    applyLine parseF defCps c (strL "hotkey=" ++ v) =
      { c with hotkey := trimStr v } := by
  have hsp : splitFirstEq (strL "hotkey=" ++ v) = some (strL "hotkey", v) :=
    splitFirstEq_key (strL "hotkey") (by decide) v
  simp only [applyLine, hsp]
  rw [show trimStr (strL "hotkey") = strL "hotkey" from by decide,
    if_pos (rfl : strL "hotkey" = strL "hotkey")]

theorem applyLine_line_fast_mode {F : Type} (parseF : Str → Option F)
    (defCps : F) (c : Config F) (v : Str) :
    applyLine parseF defCps c (strL "fast_mode=" ++ v) =
      { c with fast_mode := (parseBoolStr (trimStr v)).getD true } := by
  have hsp : splitFirstEq (strL "fast_mode=" ++ v)
      = some (strL "fast_mode", v) :=
    splitFirstEq_key (strL "fast_mode") (by decide) v
  simp only [applyLine, hsp]
  rw [show trimStr (strL "fast_mode") = strL "fast_mode" from by decide,
    if_neg (show ¬ strL "fast_mode" = strL "hotkey" from by decide),
    if_pos (rfl : strL "fast_mode" = strL "fast_mode")]

theorem applyLine_line_target_cps {F : Type} (parseF : Str → Option F)
    (defCps : F) (c : Config F) (v : Str) :
    applyLine parseF defCps c (strL "target_cps=" ++ v) =
      { c with target_cps := (parseF (trimStr v)).getD defCps } := by
  have hsp : splitFirstEq (strL "target_cps=" ++ v)
      = some (strL "target_cps", v) :=
    splitFirstEq_key (strL "target_cps") (by decide) v
  simp only [applyLine, hsp]
  rw [show trimStr (strL "target_cps") = strL "target_cps" from by decide,
    if_neg (show ¬ strL "target_cps" = strL "hotkey" from by decide),
    if_neg (show ¬ strL "target_cps" = strL "fast_mode" from by decide),
    if_pos (rfl : strL "target_cps" = strL "target_cps")]

theorem applyLine_line_left_click {F : Type} (parseF : Str → Option F)
    (defCps : F) (c : Config F) (v : Str) :
    applyLine parseF defCps c (strL "left_click=" ++ v) =
      { c with left_click := (parseBoolStr (trimStr v)).getD true } := by
  have hsp : splitFirstEq (strL "left_click=" ++ v)
      = some (strL "left_click", v) :=
    splitFirstEq_key (strL "left_click") (by decide) v
  simp only [applyLine, hsp]
  rw [show trimStr (strL "left_click") = strL "left_click" from by decide,
    if_neg (show ¬ strL "left_click" = strL "hotkey" from by decide),
    if_neg (show ¬ strL "left_click" = strL "fast_mode" from by decide),
    if_neg (show ¬ strL "left_click" = strL "target_cps" from by decide),
    if_pos (rfl : strL "left_click" = strL "left_click")]

theorem applyLine_line_middle_click {F : Type} (parseF : Str → Option F)
    (defCps : F) (c : Config F) (v : Str) :
    applyLine parseF defCps c (strL "middle_click=" ++ v) =
      { c with middle_click := (parseBoolStr (trimStr v)).getD false } := by
  have hsp : splitFirstEq (strL "middle_click=" ++ v)
      = some (strL "middle_click", v) :=
    splitFirstEq_key (strL "middle_click") (by decide) v
  simp only [applyLine, hsp]
  rw [show trimStr (strL "middle_click") = strL "middle_click" from by decide,
    if_neg (show ¬ strL "middle_click" = strL "hotkey" from by decide),
    if_neg (show ¬ strL "middle_click" = strL "fast_mode" from by decide),
    if_neg (show ¬ strL "middle_click" = strL "target_cps" from by decide),
    if_neg (show ¬ strL "middle_click" = strL "left_click" from by decide),
    if_pos (rfl : strL "middle_click" = strL "middle_click")]

theorem applyLine_line_right_click {F : Type} (parseF : Str → Option F)
    (defCps : F) (c : Config F) (v : Str) :
    applyLine parseF defCps c (strL "right_click=" ++ v) =
      { c with right_click := (parseBoolStr (trimStr v)).getD false } := by
  have hsp : splitFirstEq (strL "right_click=" ++ v)
      = some (strL "right_click", v) :=
    splitFirstEq_key (strL "right_click") (by decide) v
  simp only [applyLine, hsp]
  rw [show trimStr (strL "right_click") = strL "right_click" from by decide,
    if_neg (show ¬ strL "right_click" = strL "hotkey" from by decide),
    if_neg (show ¬ strL "right_click" = strL "fast_mode" from by decide),
    if_neg (show ¬ strL "right_click" = strL "target_cps" from by decide),
    if_neg (show ¬ strL "right_click" = strL "left_click" from by decide),
    if_neg (show ¬ strL "right_click" = strL "middle_click" from by decide),
    if_pos (rfl : strL "right_click" = strL "right_click")]

theorem applyLine_line_play_sound {F : Type} (parseF : Str → Option F)
    (defCps : F) (c : Config F) (v : Str) :
    applyLine parseF defCps c (strL "play_sound=" ++ v) =
      { c with play_sound := (parseBoolStr (trimStr v)).getD false } := by
  have hsp : splitFirstEq (strL "play_sound=" ++ v)
      = some (strL "play_sound", v) :=
    splitFirstEq_key (strL "play_sound") (by decide) v
  simp only [applyLine, hsp]
  rw [show trimStr (strL "play_sound") = strL "play_sound" from by decide,
    if_neg (show ¬ strL "play_sound" = strL "hotkey" from by decide),
    if_neg (show ¬ strL "play_sound" = strL "fast_mode" from by decide),
    if_neg (show ¬ strL "play_sound" = strL "target_cps" from by decide),
    if_neg (show ¬ strL "play_sound" = strL "left_click" from by decide),
    if_neg (show ¬ strL "play_sound" = strL "middle_click" from by decide),
    if_neg (show ¬ strL "play_sound" = strL "right_click" from by decide),
    if_pos (rfl : strL "play_sound" = strL "play_sound")]

/-! ## Helper lemmas: trimming -/

theorem rdropWhile_append_eq (p : Char → Bool) (u : Str) :
    ∃ r : Str, List.rdropWhile p u ++ r = u := by
  obtain ⟨r, hr⟩ := List.dropWhile_suffix (l := u.reverse) p
  refine ⟨r.reverse, ?_⟩
  have h2 := congrArg List.reverse hr
  simpa [List.rdropWhile, List.reverse_append] using h2

theorem dropWhile_rdropWhile (p : Char → Bool) (u : Str)
    (hu : u.dropWhile p = u) :
    (List.rdropWhile p u).dropWhile p = List.rdropWhile p u := by
  obtain ⟨r, hr⟩ := rdropWhile_append_eq p u
  cases ht : List.rdropWhile p u with
  | nil => rfl
  | cons a t =>
    have hua : u = a :: (t ++ r) := by
      rw [← hr, ht]; simp
    have hpa : ¬ p a = true := by
      intro hpa
      have h1 := hu
      rw [hua, List.dropWhile_cons, if_pos hpa] at h1
      have hlen := congrArg List.length h1
      rw [List.length_cons] at hlen
      have hle : (List.dropWhile p (t ++ r)).length ≤ (t ++ r).length :=
        (List.dropWhile_suffix (l := t ++ r) p).sublist.length_le
      omega
    rw [List.dropWhile_cons, if_neg hpa]

theorem trimStr_trimStr (s : Str) : trimStr (trimStr s) = trimStr s := by
  unfold trimStr
  rw [dropWhile_rdropWhile Char.isWhitespace (s.dropWhile Char.isWhitespace)
    (List.dropWhile_idempotent Char.isWhitespace s),
    List.rdropWhile_idempotent]

theorem trimStr_boolStr (b : Bool) : trimStr (boolStr b) = boolStr b := by
  cases b <;> decide

theorem parseBool_boolStr (b : Bool) : parseBoolStr (boolStr b) = some b := by
  cases b <;> decide

theorem lineVal_trimmed (key line v : Str) (h : lineVal key line = some v) :
    trimStr v = v := by
  unfold lineVal at h
  cases hsp : splitFirstEq line with
  | none => rw [hsp] at h; exact absurd h (by simp)
  | some kv =>
    obtain ⟨k, w⟩ := kv
    rw [hsp] at h
    dsimp only at h
    by_cases hk : trimStr k = key
    · rw [if_pos hk] at h
      injection h with h'
      rw [← h']
      exact trimStr_trimStr w
    · rw [if_neg hk] at h
      exact absurd h (by simp)

theorem lastValFrom_trimmed (key : Str) (lines : List Str) :
    ∀ a : Option Str, (∀ w, a = some w → trimStr w = w) →
      ∀ v, lastValFrom key a lines = some v → trimStr v = v := by
  induction lines with
  | nil => intro a ha v hv; exact ha v hv
  | cons line ls ih =>
    intro a ha v hv
    refine ih _ ?_ v hv
    intro w hw
    dsimp only at hw
    cases hl : lineVal key line with
    | none =>
      rw [hl] at hw
      exact ha w hw
    | some u =>
      rw [hl] at hw
      injection hw with h'
      rw [← h']
      exact lineVal_trimmed key line u hl

theorem lastVal_trimmed (key : Str) (lines : List Str) (v : Str)
    (h : lastVal key lines = some v) : trimStr v = v :=
  lastValFrom_trimmed key lines none (fun w hw => absurd hw (by simp)) v h

theorem loadLines_hotkey_trim {F : Type} (parseF : Str → Option F)
    (defCps : F) (lines : List Str) :
    trimStr (loadLines parseF defCps lines).hotkey
      = (loadLines parseF defCps lines).hotkey := by
  have h := foldl_applyLine_eq parseF defCps lines (defaultConfig defCps)
  unfold loadLines
  rw [h]
  cases hl : lastVal (strL "hotkey") lines with
  | none =>
    show trimStr (strL "Insert") = strL "Insert"
    decide
  | some v =>
    show trimStr v = v
    exact lastVal_trimmed _ _ _ hl

/-- Loading a saved config recovers it exactly, provided the config's
hotkey string is already trimmed (true of every loaded config) and the
float display round-trips through the parser after trimming (the documented
contract of `f64`'s `Display` / `FromStr`). -/
theorem loadLines_save {F : Type} (parseF : Str → Option F)
    (displayF : F → Str) (defCps : F)
    (hrt : ∀ x, parseF (trimStr (displayF x)) = some x)
    (c : Config F) (hc : trimStr c.hotkey = c.hotkey) :
    loadLines parseF defCps (save displayF c) = c := by
  unfold loadLines
  simp only [save, List.foldl_cons, List.foldl_nil]
  rw [applyLine_line_hotkey, applyLine_line_fast_mode,
    applyLine_line_target_cps, applyLine_line_left_click,
    applyLine_line_middle_click, applyLine_line_right_click,
    applyLine_line_play_sound]
  simp only [trimStr_boolStr, parseBool_boolStr, Option.getD_some, hrt, hc]

/-! ## Claim theorems -/

/-- Sanity check: the retain-style filter keeps insertion order. -/
theorem pruneClicks_keeps_order :
    pruneClicks 2 [1, 3/2, 5/4] = [1, 3/2, 5/4] := by
  norm_num [pruneClicks, List.filter]

/-- C1 (counterexample): the claim states that pruning the timestamps
`0.0, 0.5, 1.5` at `now = 1.6` with the code's 1-second window yields the
`0.5` and `1.5` entries.  It does not: the `0.5` entry has age `1.1 > 1`. -/
theorem prune_claim_false :
    ¬ pruneClicks (8/5) [0, 1/2, 3/2] = [1/2, 3/2] := by
  norm_num [pruneClicks, List.filter]

/-- C1 (amended): pruning the timestamps `0.0, 0.5, 1.5` at `now = 1.6`
yields exactly the `1.5` entry; the `0.0` entry (age `1.6`) and the `0.5`
entry (age `1.1`) both exceed the 1-second window. -/
theorem prune_amended :
    pruneClicks (8/5) [0, 1/2, 3/2] = [3/2] := by
  norm_num [pruneClicks, List.filter]

/-- C2: for every settings file, each field of the loaded config is the
parsed value of the last line assigning it when that parses, and the
documented default when the field is missing or its value unparseable;
unknown keys are ignored (they assign no recognised field); resolving the
hotkey name through `from_config` falls back to `Insert` for unknown names;
and a missing file yields the all-defaults state with no error surfaced. -/
theorem load_field_defaults {F : Type} (parseF : Str → Option F) (defCps : F)
    (parseQ : Str → Option ℚ) (lines : List Str) :
    ((loadLines parseF defCps lines).hotkey
        = (lastVal (strL "hotkey") lines).elim (strL "Insert") id)
    ∧ ((loadLines parseF defCps lines).fast_mode
        = (lastVal (strL "fast_mode") lines).elim true
            (fun v => (parseBoolStr v).getD true))
    ∧ ((loadLines parseF defCps lines).target_cps
        = (lastVal (strL "target_cps") lines).elim defCps
            (fun v => (parseF v).getD defCps))
    ∧ ((loadLines parseF defCps lines).left_click
        = (lastVal (strL "left_click") lines).elim true
            (fun v => (parseBoolStr v).getD true))
    ∧ ((loadLines parseF defCps lines).middle_click
        = (lastVal (strL "middle_click") lines).elim false
            (fun v => (parseBoolStr v).getD false))
    ∧ ((loadLines parseF defCps lines).right_click
        = (lastVal (strL "right_click") lines).elim false
            (fun v => (parseBoolStr v).getD false))
    ∧ ((loadLines parseF defCps lines).play_sound
        = (lastVal (strL "play_sound") lines).elim false
            (fun v => (parseBoolStr v).getD false))
    ∧ ((string_to_rdev_key (loadLines parseF defCps lines).hotkey).getD .insert
        = (lastVal (strL "hotkey") lines).elim RdevKey.insert
            (fun v => (string_to_rdev_key v).getD .insert))
    ∧ mainInit parseQ none = from_config (defaultConfig 10) := by
  have h := foldl_applyLine_eq parseF defCps lines (defaultConfig defCps)
  unfold loadLines
  rw [h]
  refine ⟨rfl, rfl, rfl, rfl, rfl, rfl, rfl, ?_, rfl⟩
  cases lastVal (strL "hotkey") lines with
  | none =>
    show (string_to_rdev_key (strL "Insert")).getD .insert = .insert
    decide
  | some v => rfl

/-- C3: the bytes written by `save(load(file))` equal the bytes written by
`save(load(save(load(file))))` — saving a loaded config and reloading it
reproduces the same config, hence the same bytes, for any float
parse/display pair satisfying the round-trip contract of `f64`'s
`Display` / `FromStr` (display parses back to the same value, also after
trimming). -/
theorem save_load_idempotent {F : Type} (parseF : Str → Option F)
    (displayF : F → Str) (defCps : F)
    (hrt : ∀ x, parseF (trimStr (displayF x)) = some x)
    (lines : List Str) :
    save displayF
        (loadLines parseF defCps (save displayF (loadLines parseF defCps lines)))
      = save displayF (loadLines parseF defCps lines) := by
  rw [loadLines_save parseF displayF defCps hrt
    (loadLines parseF defCps lines) (loadLines_hotkey_trim parseF defCps lines)]

/-- C3 witness: the idempotence theorem applied to the `Bool` float model
and a small concrete file (one hotkey line with surrounding whitespace, one
garbage line). -/
theorem save_load_idempotent_witness :
    save displayBoolF
        (loadLines parseBoolF true
          (save displayBoolF
            (loadLines parseBoolF true [strL "hotkey = F5", strL "garbage"])))
      = save displayBoolF
          (loadLines parseBoolF true [strL "hotkey = F5", strL "garbage"]) :=
  save_load_idempotent parseBoolF displayBoolF true (by decide)
    [strL "hotkey = F5", strL "garbage"]

/-- C4 (code bug): the invariant `target_cps > 0` is not enforced on load —
a settings file containing `target_cps=0` parses successfully and produces
a runtime state whose target rate is `0`, for which the Fixed-rate pacing
computation `1.0 / cps` is undefined (in the Rust code,
`Duration::from_secs_f64(1.0 / 0.0)` panics at runtime when Consistent
Rate mode is active). -/
theorem load_target_cps_zero :
    (mainInit parseDecQ (some [strL "target_cps=0"])).target_cps = 0
    ∧ ¬ 0 < (mainInit parseDecQ (some [strL "target_cps=0"])).target_cps := by
  have hp : parseDecQ (strL "0") = some ((0 : ℕ) : ℚ) := rfl
  rw [show ((0 : ℕ) : ℚ) = 0 from by norm_num] at hp
  have h1 : loadLines parseDecQ 10 [strL "target_cps=0"]
      = { defaultConfig (10 : ℚ) with
          target_cps := (parseDecQ (trimStr (strL "0"))).getD 10 } :=
    applyLine_line_target_cps parseDecQ 10 (defaultConfig 10) (strL "0")
  have hload : (loadLines parseDecQ 10 [strL "target_cps=0"]).target_cps = 0 := by
    rw [h1, show trimStr (strL "0") = strL "0" from by decide, hp]
    rfl
  have hmain :
      (mainInit parseDecQ (some [strL "target_cps=0"])).target_cps = 0 := by
    show (from_config (loadLines parseDecQ 10 [strL "target_cps=0"])).target_cps = 0
    exact hload
  exact ⟨hmain, by rw [hmain]; exact lt_irrefl 0⟩

/-- C5 (counterexample): with `running=true`, Fixed-rate mode
(`fast_mode=false`, `target_cps=10`) and an EMPTY buttons snapshot, the
iteration performs only the fallback left click and does NOT end by
sleeping `1/10` s: in the source the pacing branch sits inside the
non-empty `else` of the `buttons.is_empty()` test. -/
theorem pacing_claim_false :
    (clickerStep ⟨true, .insert, false, [], false, 10, false, false, false,
        [], false⟩).2 = [.mouseClick .left]
    ∧ ¬ (clickerStep ⟨true, .insert, false, [], false, 10, false, false,
        false, [], false⟩).2.getLast? = some (.sleepSecs (1/10)) := by
  constructor
  · rfl
  · simp [clickerStep]

/-- C5 (amended): for every iteration executed with `running=true` and
Fixed-rate mode whose buttons snapshot is NON-empty, the iteration's trace
ends with the `1/targetRate`-second pacing sleep. -/
theorem pacing_nonempty (s : SharedState) (h1 : s.clicking = true)
    (h2 : s.fast_mode = false) (h3 : s.selected_buttons ≠ []) :
    (clickerStep s).2.getLast? = some (.sleepSecs (1 / s.target_cps)) := by
  have hne : s.selected_buttons.isEmpty = false := by
    cases hb : s.selected_buttons with
    | nil => exact absurd hb h3
    | cons a l => rfl
  simp [clickerStep, h1, h2, hne, List.getLast?_concat]

/-- C5 witness: the amended pacing theorem at a concrete active state with
one selected button and `target_cps = 5`. -/
theorem pacing_nonempty_witness :
    (clickerStep ⟨true, .insert, false, [], false, 5, true, false, false,
        [.left], false⟩).2.getLast? = some (.sleepSecs (1/5)) :=
  pacing_nonempty
    ⟨true, .insert, false, [], false, 5, true, false, false, [.left], false⟩
    rfl rfl (by decide)

theorem count_soundSpawn_actions (bs : List MouseButton) :
    (bs.flatMap (fun b => [EmitEvent.mouseDown b, EmitEvent.mouseUp b])).count
        EmitEvent.soundSpawn = 0 := by
  induction bs with
  | nil => rfl
  | cons b bs ih =>
    simp [List.flatMap_cons, List.count_append, List.count_cons, ih]

/-- C6 (counterexample): with `running=true`, `soundEnabled=true` and an
EMPTY buttons snapshot, the iteration spawns NO sound playback: in the
source the sound spawn sits inside the non-empty `else` of the
`buttons.is_empty()` test. -/
theorem sound_claim_false :
    ¬ (clickerStep ⟨true, .insert, false, [], true, 10, false, false, false,
        [], true⟩).2.count EmitEvent.soundSpawn = 1
    ∧ (clickerStep ⟨true, .insert, false, [], true, 10, false, false, false,
        [], true⟩).2.count EmitEvent.soundSpawn = 0 := by
  constructor <;> simp [clickerStep]

/-- C6 (amended): for every iteration executed with `running=true` and
`soundEnabled=true` whose buttons snapshot is NON-empty, exactly one
asynchronous sound playback is spawned (a fire-and-forget `thread::spawn`
that the emission loop does not wait on). -/
theorem sound_nonempty (s : SharedState) (h1 : s.clicking = true)
    (h2 : s.play_sound = true) (h3 : s.selected_buttons ≠ []) :
    (clickerStep s).2.count EmitEvent.soundSpawn = 1 := by
  have hne : s.selected_buttons.isEmpty = false := by
    cases hb : s.selected_buttons with
    | nil => exact absurd hb h3
    | cons a l => rfl
  cases hfm : s.fast_mode <;>
    simp [clickerStep, h1, h2, hne, hfm, List.count_append,
      count_soundSpawn_actions, List.count_cons]

/-- C6 witness: the amended sound theorem at a concrete active state with
one selected button and sound enabled. -/
theorem sound_nonempty_witness :
    (clickerStep ⟨true, .insert, false, [], true, 10, true, false, false,
        [.left], true⟩).2.count EmitEvent.soundSpawn = 1 :=
  sound_nonempty
    ⟨true, .insert, false, [], true, 10, true, false, false, [.left], true⟩
    rfl rfl (by decide)

/-- C7: every iteration executed with `running=true` and an empty buttons
snapshot emits exactly one Primary press+release (`enigo.mouse_click(Left)`)
and nothing else — in particular no other pointer action. -/
theorem empty_fallback_click (s : SharedState) (h1 : s.clicking = true)
    (h2 : s.selected_buttons = []) :
    (clickerStep s).2 = [.mouseClick .left] := by
  simp [clickerStep, h1, h2]

/-- C7 witness: the empty-snapshot fallback at a concrete active state. -/
theorem empty_fallback_click_witness :
    (clickerStep ⟨true, .f5, false, [], true, 10, false, false, false, [],
        true⟩).2 = [.mouseClick .left] :=
  empty_fallback_click
    ⟨true, .f5, false, [], true, 10, false, false, false, [], true⟩ rfl rfl

/-- C8: a key press of any `k` while rebinding stores `k` as the hotkey and
clears the rebinding flag; it never touches `running` (also when `k` equals
the current hotkey) or the click timestamps, and after it the rebinding
flag is false, so no further press is consumed by this rebind request. -/
theorem rebind_sets_hotkey (s : SharedState) (k : RdevKey)
    (h : s.changing_hotkey = true) :
    (listenerStep s (.keyPress k)).hotkey = k
    ∧ (listenerStep s (.keyPress k)).changing_hotkey = false
    ∧ (listenerStep s (.keyPress k)).clicking = s.clicking
    ∧ (listenerStep s (.keyPress k)).clicks = s.clicks := by
  simp [listenerStep, h]

/-- C8 witness: rebinding with `k` equal to the current hotkey (`F5`)
still stores the key, clears the flag and leaves `running` untouched. -/
theorem rebind_sets_hotkey_witness :
    (listenerStep ⟨false, .f5, true, [], true, 10, true, false, false,
        [.left], false⟩ (.keyPress .f5)).hotkey = .f5
    ∧ (listenerStep ⟨false, .f5, true, [], true, 10, true, false, false,
        [.left], false⟩ (.keyPress .f5)).changing_hotkey = false
    ∧ (listenerStep ⟨false, .f5, true, [], true, 10, true, false, false,
        [.left], false⟩ (.keyPress .f5)).clicking = false
    ∧ (listenerStep ⟨false, .f5, true, [], true, 10, true, false, false,
        [.left], false⟩ (.keyPress .f5)).clicks = [] :=
  rebind_sets_hotkey
    ⟨false, .f5, true, [], true, 10, true, false, false, [.left], false⟩
    .f5 rfl

/-- C9: with rebinding off, a key press flips `running` exactly when the
key equals the current hotkey, changes nothing else, and two successive
presses of the same key restore `running` to its original value. -/
theorem hotkey_toggle_involution (s : SharedState) (k : RdevKey)
    (h : s.changing_hotkey = false) :
    ((listenerStep s (.keyPress k)).clicking
        = if k = s.hotkey then !s.clicking else s.clicking)
    ∧ (listenerStep s (.keyPress k)).hotkey = s.hotkey
    ∧ (listenerStep s (.keyPress k)).changing_hotkey = false
    ∧ (listenerStep s (.keyPress k)).clicks = s.clicks
    ∧ (listenerStep s (.keyPress k)).selected_buttons = s.selected_buttons
    ∧ (listenerStep s (.keyPress k)).target_cps = s.target_cps
    ∧ (listenerStep s (.keyPress k)).fast_mode = s.fast_mode
    ∧ (listenerStep s (.keyPress k)).play_sound = s.play_sound
    ∧ (listenerStep (listenerStep s (.keyPress k)) (.keyPress k)).clicking
        = s.clicking := by
  by_cases hk : k = s.hotkey <;> simp [listenerStep, h, hk]

/-- C9 witness: pressing the current hotkey (`Insert`) once turns
`running` on, twice returns it to off, with every other field unchanged. -/
theorem hotkey_toggle_involution_witness :
    ((listenerStep ⟨false, .insert, false, [], false, 10, true, false, false,
        [.left], true⟩ (.keyPress .insert)).clicking = true)
    ∧ (listenerStep ⟨false, .insert, false, [], false, 10, true, false, false,
        [.left], true⟩ (.keyPress .insert)).hotkey = .insert
    ∧ (listenerStep ⟨false, .insert, false, [], false, 10, true, false, false,
        [.left], true⟩ (.keyPress .insert)).changing_hotkey = false
    ∧ (listenerStep ⟨false, .insert, false, [], false, 10, true, false, false,
        [.left], true⟩ (.keyPress .insert)).clicks = []
    ∧ (listenerStep ⟨false, .insert, false, [], false, 10, true, false, false,
        [.left], true⟩ (.keyPress .insert)).selected_buttons = [.left]
    ∧ (listenerStep ⟨false, .insert, false, [], false, 10, true, false, false,
        [.left], true⟩ (.keyPress .insert)).target_cps = 10
    ∧ (listenerStep ⟨false, .insert, false, [], false, 10, true, false, false,
        [.left], true⟩ (.keyPress .insert)).fast_mode = false
    ∧ (listenerStep ⟨false, .insert, false, [], false, 10, true, false, false,
        [.left], true⟩ (.keyPress .insert)).play_sound = true
    ∧ (listenerStep (listenerStep ⟨false, .insert, false, [], false, 10,
        true, false, false, [.left], true⟩ (.keyPress .insert))
        (.keyPress .insert)).clicking = false :=
  hotkey_toggle_involution
    ⟨false, .insert, false, [], false, 10, true, false, false, [.left], true⟩
    .insert rfl

/-- C10: no autoclicker-loop iteration writes the `running` flag, the
hotkey, the rebinding flag or the click-timestamp list — the emitter never
initiates an Idle/Active transition itself; it only reads the shared state
and emits effects. -/
theorem clicker_frame (s : SharedState) :
    (clickerStep s).1.clicking = s.clicking
    ∧ (clickerStep s).1.hotkey = s.hotkey
    ∧ (clickerStep s).1.changing_hotkey = s.changing_hotkey
    ∧ (clickerStep s).1.clicks = s.clicks := by
  have hfst : (clickerStep s).1 = s := by
    unfold clickerStep
    cases hc : s.clicking <;> cases hb : s.selected_buttons.isEmpty <;>
      simp [hc, hb]
  rw [hfst]
  exact ⟨rfl, rfl, rfl, rfl⟩
